import Mathlib

/-!
Verification development for `vdc.js`, a command-line utility with two
workflows: toggling VM power through a cloud-panel REST API discovered by
scraping an authenticated HTML page, and executing a shell command on a
list of hosts over SSH.

The script is shallowly embedded: every network call, prompt, delay and
console print becomes an `Event` in an explicit trace, and the responses
of the outside world (HTTP endpoints, SSH servers, the interactive
prompt) are supplied by environment records (`VdcEnv`, `SshEnv`).
Failures are values of `Except String`.  Terminal colouring
(`chalk.blue`) is modelled as the identity on strings, which is exactly
chalk's behaviour when standard output is not a terminal; the
`superagent` proxy configuration and the host-id hash sent in the login
body are invisible in this event model and are elided.
-/

/-! ## JS string primitives used by the script -/

/-- Split a character list at every comma, keeping empty fields; the
empty list yields `[[]]`. -/
def splitCommaL : List Char → List (List Char)
  | [] => [[]]
  | c :: rest =>
    if c = ',' then [] :: splitCommaL rest
    else
      match splitCommaL rest with
      | l :: ls => (c :: l) :: ls
      | [] => [[c]]

/-- `s.split(/,/)` of JavaScript: split on every comma, keeping empty
fields; the empty string yields `[""]`. -/
def splitComma (s : String) : List String :=
  (splitCommaL s.data).map (fun l => String.mk l)

/-- The apostrophe character, used as the quote delimiter in the panel
scraping regexes. -/
def quoteChar : Char := Char.ofNat 39

/-- Whitespace in the sense of JavaScript's `\s` character class (the
space-like code points actually relevant to HTML bodies). -/
def isJsWs (c : Char) : Bool :=
  c = ' ' || c = '\t' || c = '\n' || c = '\r' ||
  c = Char.ofNat 0x0b || c = Char.ofNat 0x0c ||
  c = Char.ofNat 0xa0 || c = Char.ofNat 0x2028 ||
  c = Char.ofNat 0x2029 || c = Char.ofNat 0xfeff

/-- Line terminators in the sense of JavaScript regexes: `.` never
matches these, and multiline `^` matches right after each of them. -/
def isLineTerm (c : Char) : Bool :=
  c = '\n' || c = '\r' || c = Char.ofNat 0x2028 || c = Char.ofNat 0x2029

/-- `startsWithL p l` holds when `p` is an initial segment of `l`. -/
def startsWithL : List Char → List Char → Bool
  | [], _ => true
  | _ :: _, [] => false
  | p :: ps, c :: cs => p = c && startsWithL ps cs

/-- After the first captured character: consume `.`-matching characters
up to the next apostrophe (the lazy `+?` stops at the first one); fail
on a line terminator or when no closing apostrophe follows. -/
def scanToQuote : List Char → Option (List Char)
  | [] => none
  | c :: rest =>
    if c = quoteChar then some []
    else if isLineTerm c then none
    else (scanToQuote rest).map (fun l => c :: l)

/-- Match `'(.+?)'` at the head of the input: an apostrophe, then at
least one `.`-matching character lazily up to the next apostrophe. -/
def captureLazy : List Char → Option (List Char)
  | [] => none
  | c :: rest =>
    if c = quoteChar then
      match rest with
      | [] => none
      | d :: rest2 =>
        if isLineTerm d then none
        else (scanToQuote rest2).map (fun l => d :: l)
    else none

/-- `text.match(/MARKER\s*'(.+?)'/)`: try every start position from the
left; at each, require the literal marker, skip `\s*`, then match the
lazily quoted capture.  Returns the capture group of the leftmost
successful match.  (Backtracking inside `\s*` can never help, because a
shorter whitespace run leaves a whitespace character where the
apostrophe is required, so this scan is faithful.) -/
def scrapeAux (marker : List Char) : List Char → Option (List Char)
  | [] => none
  | c :: rest =>
    if startsWithL marker (c :: rest) then
      match captureLazy (((c :: rest).drop marker.length).dropWhile isJsWs) with
      | some cap => some cap
      | none => scrapeAux marker rest
    else scrapeAux marker rest

/-- String-level wrapper for the three `res.text.match(...)` scrapes. -/
def scrape (marker text : String) : Option String :=
  (scrapeAux marker.data text.data).map (fun l => String.mk l)

/-- The literal part of `/"user":\s*'(.+?)'/`. -/
def userMarker : String := "\"user\":"

/-- The literal part of `/"token":\s*'(.+?)'/`. -/
def tokenMarker : String := "\"token\":"

/-- The literal part of `/"api":\s*'(.+?)'/`. -/
def apiMarker : String := "\"api\":"

/-- `stdout.replace(/^/mg, pfx)` inserts `pfx` after every line
terminator (this is the part after the leading insertion). -/
def tagAfterTerms (pfx : List Char) : List Char → List Char
  | [] => []
  | c :: rest =>
    if isLineTerm c then c :: (pfx ++ tagAfterTerms pfx rest)
    else c :: tagAfterTerms pfx rest

/-- `stdout.replace(/^/mg, pfx)`: multiline `^` matches at the start of
the input and right after every line terminator, so `pfx` is inserted at
the front and after each terminator character. -/
def tagLines (pfx s : String) : String :=
  String.mk (pfx.data ++ tagAfterTerms pfx.data s.data)

/-- Split a character list into its lines at the line terminators (each
terminator ends a line; the result is always non-empty). -/
def splitLinesL : List Char → List (List Char)
  | [] => [[]]
  | c :: rest =>
    if isLineTerm c then [] :: splitLinesL rest
    else
      match splitLinesL rest with
      | l :: ls => (c :: l) :: ls
      | [] => [[c]]

/-! ## JS plain-object model (string keys, string values)

`name2id` is a plain object used as a dictionary.  Property assignment
overwrites the value of an existing key in place and appends a fresh
key; property read returns the value of the (unique) matching key.
Prototype-chain quirks of JavaScript property lookup are outside this
model. -/

/-- Property read `m[k]`: `some v` when the own property exists. -/
def objGet (m : List (String × String)) (k : String) : Option String :=
  (m.find? (fun p => p.1 = k)).map (fun p => p.2)

/-- Property assignment `m[k] = v`. -/
def objSet (m : List (String × String)) (k v : String) : List (String × String) :=
  match m with
  | [] => [(k, v)]
  | p :: rest => if p.1 = k then (k, v) :: rest else p :: objSet rest k v

/-- Lines 73–78: build `name2id` by iterating over the servers map in
its enumeration order and assigning `name2id[server.name] = id`. -/
def name2idOf (servers : List (String × String)) : List (String × String) :=
  servers.foldl (fun m p => objSet m p.2 p.1) []

/-! ## Traces, options, environments -/

/-- One observable action of the script. -/
inductive Event where
  | prompt (message : String)
  | httpPost (url : String)
  | httpGet (url : String)
  | apiGet (url user token : String)
  | apiPatch (url user token : String) (power : Bool)
  | delayMs (n : Nat)
  | printLine (s : String)
  | sshConnect (host username : String) (readyTimeoutMs : Nat)
  | sshExec (host cmd : String)
deriving DecidableEq, Repr

/-- The Caporal `opts` object as both workflows see it.  `password` is
`some s` exactly when `typeof opts.password === "string"`. -/
structure Opts where
  location : String
  username : String
  password : Option String
deriving DecidableEq, Repr

/-- World oracle for the vDC workflow: the prompt answer and the
outcome of each HTTP interaction. -/
structure VdcEnv where
  promptAnswer : String
  loginResp : Except String Unit
  panelResp : Except String String
  serversResp : Except String (List (String × String))
  powerResp : String → Except String Unit

/-- Result of `ssh.execCommand` (only `stdout` is consumed). -/
structure SshResult where
  stdout : String
  stderr : String
deriving DecidableEq, Repr

/-- World oracle for the SSH workflow. -/
structure SshEnv where
  promptAnswer : String
  connectResp : String → Except String Unit
  execResp : String → Except String SshResult

/-! ## The two workflows -/

/-- Lines 30–38: prompt for the vDC password when `opts.password` is
not a string, writing the typed answer back into `opts.password`. -/
def vdcResolvePassword (opts : Opts) (answer : String) : List Event × Opts :=
  match opts.password with
  | some _ => ([], opts)
  | none =>
    ([Event.prompt (opts.username ++ " vDC password:")],
     { opts with password := some answer })

/-- Lines 106–114: prompt for the SSH password when `opts.password` is
not a string, writing the typed answer back into `opts.password`. -/
def sshResolvePassword (opts : Opts) (answer : String) : List Event × Opts :=
  match opts.password with
  | some _ => ([], opts)
  | none =>
    ([Event.prompt (opts.username ++ " SSH password:")],
     { opts with password := some answer })

/-- Error text for the `TypeError` thrown when destructuring a `null`
regex-match result (the exact engine wording is irrelevant here). -/
def nullMatchError : String := "TypeError: null is not iterable"

/-- Lines 80–101: the `Bluebird.each` loop over the VM names.  For each
name: look the id up (`typeof id !== "string"` throws the invalid-name
error), print the status line, PATCH the power endpoint, and when the
pre-incremented counter is still below `vmmax` wait ten seconds. -/
def vdcLoop (level : Bool) (apiURL apiUser apiToken : String)
    (name2id : List (String × String)) (env : VdcEnv) (vmmax : Nat) :
    List String → Nat → List Event × Except String Unit
  | [], _ => ([], Except.ok ())
  | vm :: rest, vmcur =>
    match objGet name2id vm with
    | none => ([], Except.error ("invalid VM name \"" ++ vm ++ "\""))
    | some id =>
      let ev := [Event.printLine (vm ++ ": switching power " ++ (if level then "on" else "off")),
                 Event.apiPatch (apiURL ++ "/objects/servers/" ++ id ++ "/power")
                   apiUser apiToken level]
      match env.powerResp id with
      | Except.error e => (ev, Except.error e)
      | Except.ok () =>
        let ev2 := if vmcur + 1 < vmmax then ev ++ [Event.delayMs 10000] else ev
        let r := vdcLoop level apiURL apiUser apiToken name2id env vmmax rest (vmcur + 1)
        (ev2 ++ r.1, r.2)

/-- Lines 29–102, `vdcPower`: resolve the password, POST the login,
GET the panel page, scrape the three API values (a `null` match throws
before the next scrape runs), GET the server listing, build `name2id`,
then run the power loop over the comma-split VM list. -/
def vdcPower (level : Bool) (vms : String) (opts0 : Opts) (env : VdcEnv) :
    List Event × Except String Unit :=
  let rp := vdcResolvePassword opts0 env.promptAnswer
  let opts := rp.2
  let ev1 := rp.1 ++ [Event.httpPost (opts.location ++ "/api/login")]
  match env.loginResp with
  | Except.error e => (ev1, Except.error e)
  | Except.ok () =>
    let ev2 := ev1 ++ [Event.httpGet (opts.location ++ "/Panel/")]
    match env.panelResp with
    | Except.error e => (ev2, Except.error e)
    | Except.ok text =>
      match scrape userMarker text with
      | none => (ev2, Except.error nullMatchError)
      | some apiUser =>
        match scrape tokenMarker text with
        | none => (ev2, Except.error nullMatchError)
        | some apiToken =>
          match scrape apiMarker text with
          | none => (ev2, Except.error nullMatchError)
          | some apiURL =>
            let ev3 := ev2 ++ [Event.apiGet (apiURL ++ "/objects/servers") apiUser apiToken]
            match env.serversResp with
            | Except.error e => (ev3, Except.error e)
            | Except.ok servers =>
              let vmlist := splitComma vms
              let r := vdcLoop level apiURL apiUser apiToken (name2idOf servers) env
                vmlist.length vmlist 0
              (ev3 ++ r.1, r.2)

/-- Lines 117–131: the `Bluebird.each` loop over the hosts.  For each
host: print the echo line, connect with a five-second ready timeout,
run the command, and when the captured stdout is non-empty print it
with the prefix inserted at every line start. -/
def sshLoop (cmd username password : String) (env : SshEnv) :
    List String → List Event × Except String Unit
  | [] => ([], Except.ok ())
  | host :: rest =>
    let pfx := username ++ "@" ++ host ++ ": "
    let ev1 := [Event.printLine (pfx ++ "$ " ++ cmd),
                Event.sshConnect host username 5000]
    match env.connectResp host with
    | Except.error e => (ev1, Except.error e)
    | Except.ok () =>
      let ev2 := ev1 ++ [Event.sshExec host cmd]
      match env.execResp host with
      | Except.error e => (ev2, Except.error e)
      | Except.ok result =>
        let ev3 := if result.stdout = "" then ev2
                   else ev2 ++ [Event.printLine (tagLines pfx result.stdout)]
        let r := sshLoop cmd username password env rest
        (ev3 ++ r.1, r.2)

/-- Lines 105–132, `sshCommand`: resolve the password, then run the SSH
loop over the comma-split host list. -/
def sshCommand (cmd hosts : String) (opts0 : Opts) (env : SshEnv) :
    List Event × Except String Unit :=
  let rp := sshResolvePassword opts0 env.promptAnswer
  let opts := rp.2
  let r := sshLoop cmd opts.username (opts.password.getD "") env (splitComma hosts)
  (rp.1 ++ r.1, r.2)

/-! ## Command-line surface (lines 134–167)

The three Caporal command definitions are transcribed as data.  What
Caporal itself does with a definition (apply the default when the
option is absent from the argument vector) is modelled by
`resolveOpt`. -/

/-- One `.option(...)` call: flag string, description, validator regex
source (when given), and default value (when given). -/
structure OptionDef where
  flags : String
  descr : String
  pattern : Option String
  dflt : Option String
deriving DecidableEq, Repr

/-- One `.command(...)` block. -/
structure CommandDef where
  name : String
  altName : Option String
  descr : String
  options : List OptionDef
  args : List String
deriving DecidableEq, Repr

/-- Line 146 / line 154: the location option of the power commands. -/
def vdcLocationOpt : OptionDef :=
  { flags := "-l, --location <url>", descr := "The vDC URL",
    pattern := some "^http", dflt := some "https://vdc.msg.systems" }

/-- Line 147 / line 155: the username option of the power commands. -/
def vdcUsernameOpt : OptionDef :=
  { flags := "-u, --username <username>",
    descr := "The vDC login username (usually the Email address)",
    pattern := none, dflt := none }

/-- Line 148 / line 156: the password option of the power commands. -/
def vdcPasswordOpt : OptionDef :=
  { flags := "-p, --password <password>", descr := "The vDC login password",
    pattern := none, dflt := none }

/-- Line 162: the username option of the exec command. -/
def execUsernameOpt : OptionDef :=
  { flags := "-u, --username <username>", descr := "The OS login username",
    pattern := some "^.+$", dflt := some "root" }

/-- Line 163: the password option of the exec command. -/
def execPasswordOpt : OptionDef :=
  { flags := "-p, --password <password>", descr := "The OS login password",
    pattern := none, dflt := none }

/-- Lines 145–150: the `power-on` command. -/
def powerOnCmd : CommandDef :=
  { name := "power-on", altName := some "on",
    descr := "Switch power of a VM ON via vDC",
    options := [vdcLocationOpt, vdcUsernameOpt, vdcPasswordOpt],
    args := ["vm-name"] }

/-- Lines 153–158: the `power-off` command. -/
def powerOffCmd : CommandDef :=
  { name := "power-off", altName := some "off",
    descr := "Switch power of a VM OFF via vDC",
    options := [vdcLocationOpt, vdcUsernameOpt, vdcPasswordOpt],
    args := ["vm-name"] }

/-- Lines 161–166: the `exec` command. -/
def execCmd : CommandDef :=
  { name := "exec", altName := none,
    descr := "Execute a shell command under an OS via SSH",
    options := [execUsernameOpt, execPasswordOpt],
    args := ["host-name", "command"] }

/-- Caporal's option resolution: the supplied value when present,
otherwise the definition's default. -/
def resolveOpt (supplied : Option String) (o : OptionDef) : Option String :=
  match supplied with
  | some v => some v
  | none => o.dflt

/-! ## Dispatch and exit code (lines 169–185) -/

/-- The dispatched command slot filled by the action callbacks:
`none` when no command matched. -/
inductive Cmd where
  | powerOn (vmName : String) (opts : Opts)
  | powerOff (vmName : String) (opts : Opts)
  | exec (command : String) (hostName : String) (opts : Opts)
deriving DecidableEq, Repr

/-- `util.inspect(err, ...)`: a diagnostic rendering of the error.  The
library's exact formatting is immaterial; what matters is that a second
diagnostic line derived from the error is printed. -/
def utilInspect (err : String) : String := "Error: " ++ err

/-- Lines 178–185: a workflow that returns normally reaches
`process.exit(0)`; a thrown error reaches the `.catch` handler, which
prints the message line and the inspect dump and exits with 1. -/
def finishRun : List Event × Except String Unit → Nat × List Event
  | (tr, Except.ok ()) => (0, tr)
  | (tr, Except.error e) =>
    (1, tr ++ [Event.printLine ("vdc: ERROR: " ++ e),
               Event.printLine ("vdc: ERROR: " ++ utilInspect e)])

/-- Lines 172–176: the `switch` over the matched command name. -/
def runCmd (c : Cmd) (venv : VdcEnv) (senv : SshEnv) : List Event × Except String Unit :=
  match c with
  | Cmd.powerOn vms opts => vdcPower true vms opts venv
  | Cmd.powerOff vms opts => vdcPower false vms opts venv
  | Cmd.exec c hosts opts => sshCommand c hosts opts senv

/-- Lines 169–185: `process.exit(1)` when no command matched (before
any workflow runs), otherwise dispatch to the matching workflow and
turn its outcome into an exit code and final trace. -/
def dispatch (cmd : Option Cmd) (venv : VdcEnv) (senv : SshEnv) : Nat × List Event :=
  match cmd with
  | none => (1, [])
  | some c => finishRun (runCmd c venv senv)

/-! ## Trace observations and spec-side expected traces -/

/-- The power-set calls of a trace, as the PATCHed URLs in order. -/
def patchesOf (tr : List Event) : List String :=
  tr.filterMap (fun e => match e with
    | Event.apiPatch url _ _ _ => some url
    | _ => none)

/-- The delays of a trace, in milliseconds, in order. -/
def delaysOf (tr : List Event) : List Nat :=
  tr.filterMap (fun e => match e with
    | Event.delayMs n => some n
    | _ => none)

/-- The SSH connection attempts of a trace, as host names in order. -/
def connectsOf (tr : List Event) : List String :=
  tr.filterMap (fun e => match e with
    | Event.sshConnect h _ _ => some h
    | _ => none)

/-- The interactive prompts of a trace. -/
def promptsOf (tr : List Event) : List String :=
  tr.filterMap (fun e => match e with
    | Event.prompt m => some m
    | _ => none)

/-- The URL the power workflow PATCHes for a given id. -/
def powerUrl (apiURL id : String) : String :=
  apiURL ++ "/objects/servers/" ++ id ++ "/power"

/-- Expected per-VM events when every name resolves: status line and
power call for each VM, a ten-second delay after every element except
the last. -/
def specVmEvents (level : Bool) (apiURL apiUser apiToken : String)
    (name2id : List (String × String)) : List String → List Event
  | [] => []
  | [vm] =>
    [Event.printLine (vm ++ ": switching power " ++ (if level then "on" else "off")),
     Event.apiPatch (powerUrl apiURL ((objGet name2id vm).getD "")) apiUser apiToken level]
  | vm :: vm2 :: rest =>
    [Event.printLine (vm ++ ": switching power " ++ (if level then "on" else "off")),
     Event.apiPatch (powerUrl apiURL ((objGet name2id vm).getD "")) apiUser apiToken level,
     Event.delayMs 10000]
    ++ specVmEvents level apiURL apiUser apiToken name2id (vm2 :: rest)

/-- Events of the successful handshake before the VM loop. -/
def specHandshake (opts : Opts) (answer : String) (apiUser apiToken apiURL : String) :
    List Event :=
  (vdcResolvePassword opts answer).1
  ++ [Event.httpPost (opts.location ++ "/api/login"),
      Event.httpGet (opts.location ++ "/Panel/"),
      Event.apiGet (apiURL ++ "/objects/servers") apiUser apiToken]

/-- Expected events for one host of the exec workflow when its
connection and command both succeed. -/
def specHostEvents (cmd username : String) (env : SshEnv) (host : String) : List Event :=
  let pfx := username ++ "@" ++ host ++ ": "
  [Event.printLine (pfx ++ "$ " ++ cmd), Event.sshConnect host username 5000,
   Event.sshExec host cmd]
  ++ (match env.execResp host with
      | Except.ok r => if r.stdout = "" then [] else [Event.printLine (tagLines pfx r.stdout)]
      | Except.error _ => [])

/-- Expected per-VM events of the power loop when the loop is known to
stop or fail later: status line, power call, and the ten-second delay
after every element (used for the elements before a failing name, all
of which are followed by at least one further element). -/
def specVmFailEvents (level : Bool) (apiURL apiUser apiToken : String)
    (name2id : List (String × String)) : List String → List Event
  | [] => []
  | vm :: rest =>
    [Event.printLine (vm ++ ": switching power " ++ (if level then "on" else "off")),
     Event.apiPatch (powerUrl apiURL ((objGet name2id vm).getD "")) apiUser apiToken level,
     Event.delayMs 10000]
    ++ specVmFailEvents level apiURL apiUser apiToken name2id rest

/-- Expected events of the exec workflow over a host list in which
every connection and command succeeds. -/
def specSshEvents (cmd username : String) (env : SshEnv) : List String → List Event
  | [] => []
  | host :: rest =>
    specHostEvents cmd username env host ++ specSshEvents cmd username env rest

/-- Expected events for the failing host of the exec workflow: the echo
line and the connection attempt, plus the command execution when the
connection itself succeeded and the failure came from the command. -/
def specFailHostEvents (cmd username : String) (env : SshEnv) (host : String) :
    List Event :=
  let pfx := username ++ "@" ++ host ++ ": "
  [Event.printLine (pfx ++ "$ " ++ cmd), Event.sshConnect host username 5000]
  ++ (match env.connectResp host with
      | Except.ok _ => [Event.sshExec host cmd]
      | Except.error _ => [])

/-! ## Concrete data for evaluating the definitions -/

/-- A one-character string holding the apostrophe. -/
def q : String := String.mk [quoteChar]

/-- A panel body carrying all three markers with quoted values. -/
def wPanel : String :=
  "var config = \x7b \"user\": " ++ q ++ "u1" ++ q ++ ", \"token\": " ++ q ++ "t1" ++ q
    ++ ", \"api\": " ++ q ++ "https://api.example" ++ q ++ " \x7d;"

/-- Options with a supplied password. -/
def wOptsP : Opts :=
  { location := "https://vdc.msg.systems", username := "alice", password := some "pw" }

/-- Options without a password. -/
def wOptsN : Opts :=
  { location := "https://vdc.msg.systems", username := "alice", password := none }

/-- A server listing with two distinct names. -/
def wServers : List (String × String) := [("id1", "web1"), ("id2", "web2")]

/-- A server listing in which two servers share one display name. -/
def wServersDup : List (String × String) := [("id1", "web"), ("id2", "web")]

/-- A command result with non-empty standard output. -/
def wRes : SshResult := { stdout := "up 1 day\nload 0.1", stderr := "" }

/-- vDC environment in which every interaction succeeds. -/
def wVdcEnvOk : VdcEnv :=
  { promptAnswer := "typed", loginResp := Except.ok (),
    panelResp := Except.ok wPanel, serversResp := Except.ok wServers,
    powerResp := fun _ => Except.ok () }

/-- vDC environment whose panel body carries none of the markers. -/
def wVdcEnvNoMark : VdcEnv :=
  { promptAnswer := "typed", loginResp := Except.ok (),
    panelResp := Except.ok "<html>no credentials here</html>",
    serversResp := Except.ok wServers, powerResp := fun _ => Except.ok () }

/-- SSH environment in which every host succeeds. -/
def wSshEnvOk : SshEnv :=
  { promptAnswer := "typed", connectResp := fun _ => Except.ok (),
    execResp := fun _ => Except.ok wRes }

/-- SSH environment in which host `h1` is unreachable. -/
def wSshEnvFail : SshEnv :=
  { promptAnswer := "typed",
    connectResp := fun h => if h = "h1" then Except.error "unreachable" else Except.ok (),
    execResp := fun _ => Except.ok wRes }

/-- The authenticated API GET requests of a trace (the server
listing), as URLs in order. -/
def apiGetsOf (tr : List Event) : List String :=
  tr.filterMap (fun e => match e with
    | Event.apiGet url _ _ => some url
    | _ => none)

/-! ## Basic lemmas about password resolution -/

/-- Password resolution in the vDC workflow: the resulting password is
the supplied one, or the typed answer; location and username are
untouched; the prompt trace is empty exactly when a password string was
supplied. -/
theorem vdcResolvePassword_spec (opts : Opts) (a : String) :
    (vdcResolvePassword opts a).2.password = some (opts.password.getD a) ∧
    (vdcResolvePassword opts a).2.location = opts.location ∧
    (vdcResolvePassword opts a).2.username = opts.username ∧
    ((vdcResolvePassword opts a).1 = [] ↔ opts.password.isSome) := by
  cases h : opts.password <;> simp [vdcResolvePassword, h]

/-- Password resolution in the SSH workflow, same facts. -/
theorem sshResolvePassword_spec (opts : Opts) (a : String) :
    (sshResolvePassword opts a).2.password = some (opts.password.getD a) ∧
    (sshResolvePassword opts a).2.location = opts.location ∧
    (sshResolvePassword opts a).2.username = opts.username ∧
    ((sshResolvePassword opts a).1 = [] ↔ opts.password.isSome) := by
  cases h : opts.password <;> simp [sshResolvePassword, h]

/-- C7: in both workflows the interactive prompt happens exactly when
the password option is not of string type; a supplied string password
is used as-is with no prompt; and the resolution produces the same
options structure in the power-toggle and the remote-exec workflow. -/
theorem claim_C7 (opts : Opts) (a : String) :
    (promptsOf (vdcResolvePassword opts a).1 ≠ [] ↔ opts.password = none) ∧
    (promptsOf (sshResolvePassword opts a).1 ≠ [] ↔ opts.password = none) ∧
    (vdcResolvePassword opts a).2 = (sshResolvePassword opts a).2 ∧
    (vdcResolvePassword opts a).2.password = some (opts.password.getD a) ∧
    (sshResolvePassword opts a).2.password = some (opts.password.getD a) := by
  cases h : opts.password <;>
    simp [vdcResolvePassword, sshResolvePassword, promptsOf, h]

/-- C9: after the password-resolution step of either workflow the
password field is a string — the supplied value unchanged, or the typed
answer written back — and the location and username fields are not
modified. -/
theorem claim_C9 (opts : Opts) (a : String) :
    ((vdcResolvePassword opts a).2.password = some (opts.password.getD a) ∧
     (vdcResolvePassword opts a).2.location = opts.location ∧
     (vdcResolvePassword opts a).2.username = opts.username) ∧
    ((sshResolvePassword opts a).2.password = some (opts.password.getD a) ∧
     (sshResolvePassword opts a).2.location = opts.location ∧
     (sshResolvePassword opts a).2.username = opts.username) := by
  exact ⟨⟨(vdcResolvePassword_spec opts a).1, (vdcResolvePassword_spec opts a).2.1,
          (vdcResolvePassword_spec opts a).2.2.1⟩,
         ⟨(sshResolvePassword_spec opts a).1, (sshResolvePassword_spec opts a).2.1,
          (sshResolvePassword_spec opts a).2.2.1⟩⟩

/-- C8: the location option of both power commands defaults to
`https://vdc.msg.systems` when not supplied, and the username option of
the exec command defaults to `root` when not supplied. -/
theorem claim_C8 :
    resolveOpt none vdcLocationOpt = some "https://vdc.msg.systems" ∧
    vdcLocationOpt ∈ powerOnCmd.options ∧
    vdcLocationOpt ∈ powerOffCmd.options ∧
    resolveOpt none execUsernameOpt = some "root" ∧
    execUsernameOpt ∈ execCmd.options := by
  refine ⟨rfl, ?_, ?_, rfl, ?_⟩ <;> simp [powerOnCmd, powerOffCmd, execCmd]

/-- C6: the exit code is 0 exactly when the dispatched workflow
completed without error; with no matched command the process exits 1
with no workflow attempted; and on an unrecovered error the exit code
is 1 after the error message and the diagnostic dump are printed. -/
theorem claim_C6 (venv : VdcEnv) (senv : SshEnv) :
    dispatch none venv senv = (1, []) ∧
    (∀ c : Cmd, (dispatch (some c) venv senv).1 =
      (match (runCmd c venv senv).2 with
       | Except.ok _ => 0
       | Except.error _ => 1)) ∧
    (∀ c : Cmd, (dispatch (some c) venv senv).2 =
      (runCmd c venv senv).1 ++
      (match (runCmd c venv senv).2 with
       | Except.ok _ => []
       | Except.error e =>
         [Event.printLine ("vdc: ERROR: " ++ e),
          Event.printLine ("vdc: ERROR: " ++ utilInspect e)])) := by
  refine ⟨rfl, ?_, ?_⟩ <;> intro c <;>
    rcases h : runCmd c venv senv with ⟨tr, r⟩ <;> rcases r with _ | e <;>
      simp [dispatch, finishRun, h]

/-! ## Trace-observation lemmas -/

/-- `patchesOf` distributes over trace concatenation. -/
theorem patchesOf_append (a b : List Event) :
    patchesOf (a ++ b) = patchesOf a ++ patchesOf b := by
  simp [patchesOf]

/-- `delaysOf` distributes over trace concatenation. -/
theorem delaysOf_append (a b : List Event) :
    delaysOf (a ++ b) = delaysOf a ++ delaysOf b := by
  simp [delaysOf]

/-- `connectsOf` distributes over trace concatenation. -/
theorem connectsOf_append (a b : List Event) :
    connectsOf (a ++ b) = connectsOf a ++ connectsOf b := by
  simp [connectsOf]

/-- The handshake trace contains no power-set call. -/
theorem patchesOf_specHandshake (opts : Opts) (a apiUser apiToken apiURL : String) :
    patchesOf (specHandshake opts a apiUser apiToken apiURL) = [] := by
  cases h : opts.password <;>
    simp [specHandshake, vdcResolvePassword, patchesOf, h]

/-- The handshake trace contains no delay. -/
theorem delaysOf_specHandshake (opts : Opts) (a apiUser apiToken apiURL : String) :
    delaysOf (specHandshake opts a apiUser apiToken apiURL) = [] := by
  cases h : opts.password <;>
    simp [specHandshake, vdcResolvePassword, delaysOf, h]

/-- The expected per-VM trace carries exactly one power-set call per
name, in list order. -/
theorem patchesOf_specVmEvents (level : Bool) (apiURL apiUser apiToken : String)
    (name2id : List (String × String)) (l : List String) :
    patchesOf (specVmEvents level apiURL apiUser apiToken name2id l) =
      l.map (fun vm => powerUrl apiURL ((objGet name2id vm).getD "")) := by
  induction l with
  | nil => simp [specVmEvents, patchesOf]
  | cons vm rest ih =>
    cases rest with
    | nil => simp [specVmEvents, patchesOf]
    | cons vm2 rest2 =>
      simp only [specVmEvents, patchesOf] at ih ⊢
      simp [ih]

/-- The expected per-VM trace delays exactly once per element except
the last. -/
theorem delaysOf_specVmEvents (level : Bool) (apiURL apiUser apiToken : String)
    (name2id : List (String × String)) (l : List String) :
    delaysOf (specVmEvents level apiURL apiUser apiToken name2id l) =
      List.replicate (l.length - 1) 10000 := by
  induction l with
  | nil => simp [specVmEvents, delaysOf]
  | cons vm rest ih =>
    cases rest with
    | nil => simp [specVmEvents, delaysOf]
    | cons vm2 rest2 =>
      simp only [specVmEvents, delaysOf] at ih ⊢
      simp only [List.filterMap_append] at ih ⊢
      simp [ih, List.replicate_succ]

/-! ## The power loop -/

/-- When every remaining name resolves and every power call succeeds,
the loop produces exactly the expected trace and returns normally.  The
counter invariant `vmmax = vmcur + l.length` is what the source
maintains: `vmcur` names are already done, `l` remain. -/
theorem vdcLoop_ok (level : Bool) (apiURL apiUser apiToken : String)
    (name2id : List (String × String)) (env : VdcEnv)
    (hpow : ∀ s, env.powerResp s = Except.ok ()) :
    ∀ (l : List String) (vmcur vmmax : Nat), vmmax = vmcur + l.length →
      (∀ vm ∈ l, (objGet name2id vm).isSome) →
      vdcLoop level apiURL apiUser apiToken name2id env vmmax l vmcur =
        (specVmEvents level apiURL apiUser apiToken name2id l, Except.ok ()) := by
  intro l
  induction l with
  | nil => intro vmcur vmmax _ _; simp [vdcLoop, specVmEvents]
  | cons vm rest ih =>
    intro vmcur vmmax hmax hres
    obtain ⟨id, hid⟩ := Option.isSome_iff_exists.mp (hres vm (by simp))
    simp only [List.length_cons] at hmax
    cases rest with
    | nil =>
      have hlt : ¬ (vmcur + 1 < vmmax) := by
        simp only [List.length_nil] at hmax; omega
      simp [vdcLoop, hid, hpow id, hlt, specVmEvents, powerUrl]
    | cons vm2 rest2 =>
      have hlt : vmcur + 1 < vmmax := by
        simp only [List.length_cons] at hmax; omega
      have hrec := ih (vmcur + 1) vmmax (by simp only [List.length_cons] at hmax ⊢; omega)
        (fun x hx => hres x (by simp [hx]))
      rw [vdcLoop.eq_2, hid]
      simp only [hpow id, hlt, if_true, hrec]
      rw [specVmEvents.eq_3]
      simp [powerUrl, hid]

/-- When the names before `bad` resolve but `bad` does not, the loop
performs the full per-name work (including the delay, since `bad` is
still ahead) for every earlier name, then throws the invalid-name error
for `bad` without issuing its power call. -/
theorem vdcLoop_fail (level : Bool) (apiURL apiUser apiToken : String)
    (name2id : List (String × String)) (env : VdcEnv)
    (hpow : ∀ s, env.powerResp s = Except.ok ()) :
    ∀ (pre : List String) (bad : String) (rest : List String) (vmcur vmmax : Nat),
      vmcur + pre.length + 1 ≤ vmmax →
      (∀ vm ∈ pre, (objGet name2id vm).isSome) →
      objGet name2id bad = none →
      vdcLoop level apiURL apiUser apiToken name2id env vmmax (pre ++ bad :: rest) vmcur =
        (specVmFailEvents level apiURL apiUser apiToken name2id pre,
         Except.error ("invalid VM name \"" ++ bad ++ "\"")) := by
  intro pre
  induction pre with
  | nil =>
    intro bad rest vmcur vmmax _ _ hbad
    simp [vdcLoop, hbad, specVmFailEvents]
  | cons vm pre ih =>
    intro bad rest vmcur vmmax hlt hres hbad
    obtain ⟨id, hid⟩ := Option.isSome_iff_exists.mp (hres vm (by simp))
    simp only [List.length_cons] at hlt
    have h1 : vmcur + 1 < vmmax := by omega
    have hrec := ih bad rest (vmcur + 1) vmmax (by omega)
      (fun x hx => hres x (by simp [hx])) hbad
    simp [vdcLoop, hid, hpow id, h1, hrec, specVmFailEvents, powerUrl]

/-- The failing-run per-VM trace carries exactly one power-set call per
processed name, in list order. -/
theorem patchesOf_specVmFailEvents (level : Bool) (apiURL apiUser apiToken : String)
    (name2id : List (String × String)) (l : List String) :
    patchesOf (specVmFailEvents level apiURL apiUser apiToken name2id l) =
      l.map (fun vm => powerUrl apiURL ((objGet name2id vm).getD "")) := by
  induction l with
  | nil => simp [specVmFailEvents, patchesOf]
  | cons vm rest ih =>
    simp only [specVmFailEvents, patchesOf] at ih ⊢
    simp [ih]

/-- C1: when every name of the comma-separated list resolves (and the
handshake and power calls succeed), the power workflow issues exactly
one power-set call per name, in list order, delays ten seconds after
every element except the last, and the total delay is
(count − 1) × 10 s. -/
theorem claim_C1 (level : Bool) (vms : String) (opts : Opts) (env : VdcEnv)
    (text apiUser apiToken apiURL : String) (servers : List (String × String))
    (hlogin : env.loginResp = Except.ok ())
    (hpanel : env.panelResp = Except.ok text)
    (hu : scrape userMarker text = some apiUser)
    (ht : scrape tokenMarker text = some apiToken)
    (ha : scrape apiMarker text = some apiURL)
    (hs : env.serversResp = Except.ok servers)
    (hpow : ∀ s, env.powerResp s = Except.ok ())
    (hres : ∀ vm ∈ splitComma vms, (objGet (name2idOf servers) vm).isSome) :
    vdcPower level vms opts env =
      (specHandshake opts env.promptAnswer apiUser apiToken apiURL ++
        specVmEvents level apiURL apiUser apiToken (name2idOf servers) (splitComma vms),
       Except.ok ()) ∧
    patchesOf (vdcPower level vms opts env).1 =
      (splitComma vms).map (fun vm => powerUrl apiURL ((objGet (name2idOf servers) vm).getD "")) ∧
    delaysOf (vdcPower level vms opts env).1 =
      List.replicate ((splitComma vms).length - 1) 10000 ∧
    (delaysOf (vdcPower level vms opts env).1).sum =
      ((splitComma vms).length - 1) * 10000 := by
  have hloop := vdcLoop_ok level apiURL apiUser apiToken (name2idOf servers) env hpow
    (splitComma vms) 0 (splitComma vms).length (by omega) hres
  have hmain : vdcPower level vms opts env =
      (specHandshake opts env.promptAnswer apiUser apiToken apiURL ++
        specVmEvents level apiURL apiUser apiToken (name2idOf servers) (splitComma vms),
       Except.ok ()) := by
    unfold vdcPower
    simp only [hlogin, hpanel, hu, ht, ha, hs]
    rw [hloop]
    simp [specHandshake, (vdcResolvePassword_spec opts env.promptAnswer).2.1,
      List.append_assoc]
  refine ⟨hmain, ?_, ?_, ?_⟩ <;> rw [hmain]
  · simp [patchesOf_append, patchesOf_specHandshake, patchesOf_specVmEvents]
  · simp [delaysOf_append, delaysOf_specHandshake, delaysOf_specVmEvents]
  · simp [delaysOf_append, delaysOf_specHandshake, delaysOf_specVmEvents,
      List.sum_replicate, smul_eq_mul]

/-- C1 at a concrete input: two resolving names, one call each in
order, one ten-second delay between them. -/
theorem claim_C1_witness :
    vdcPower true "web1,web2" wOptsP wVdcEnvOk =
      (specHandshake wOptsP wVdcEnvOk.promptAnswer "u1" "t1" "https://api.example" ++
        specVmEvents true "https://api.example" "u1" "t1" (name2idOf wServers)
          (splitComma "web1,web2"),
       Except.ok ()) ∧
    patchesOf (vdcPower true "web1,web2" wOptsP wVdcEnvOk).1 =
      ["https://api.example/objects/servers/id1/power",
       "https://api.example/objects/servers/id2/power"] ∧
    delaysOf (vdcPower true "web1,web2" wOptsP wVdcEnvOk).1 = [10000] := by
  have h := claim_C1 true "web1,web2" wOptsP wVdcEnvOk wPanel "u1" "t1"
    "https://api.example" wServers rfl rfl (by decide) (by decide) (by decide) rfl
    (fun _ => rfl) (by decide)
  exact ⟨h.1, by rw [h.2.1]; decide, by rw [h.2.2.1]; decide⟩

/-- C2: when the names before `bad` resolve but `bad` is absent from
the name table, the workflow raises the invalid-name error naming `bad`
without issuing its power call, and the power calls already issued are
exactly those of the earlier names, in order. -/
theorem claim_C2 (level : Bool) (vms : String) (opts : Opts) (env : VdcEnv)
    (text apiUser apiToken apiURL : String) (servers : List (String × String))
    (pre : List String) (bad : String) (rest : List String)
    (hsplit : splitComma vms = pre ++ bad :: rest)
    (hlogin : env.loginResp = Except.ok ())
    (hpanel : env.panelResp = Except.ok text)
    (hu : scrape userMarker text = some apiUser)
    (ht : scrape tokenMarker text = some apiToken)
    (ha : scrape apiMarker text = some apiURL)
    (hs : env.serversResp = Except.ok servers)
    (hpow : ∀ s, env.powerResp s = Except.ok ())
    (hres : ∀ vm ∈ pre, (objGet (name2idOf servers) vm).isSome)
    (hbad : objGet (name2idOf servers) bad = none) :
    vdcPower level vms opts env =
      (specHandshake opts env.promptAnswer apiUser apiToken apiURL ++
        specVmFailEvents level apiURL apiUser apiToken (name2idOf servers) pre,
       Except.error ("invalid VM name \"" ++ bad ++ "\"")) ∧
    patchesOf (vdcPower level vms opts env).1 =
      pre.map (fun vm => powerUrl apiURL ((objGet (name2idOf servers) vm).getD "")) := by
  have hloop := vdcLoop_fail level apiURL apiUser apiToken (name2idOf servers) env hpow
    pre bad rest 0 ((pre ++ bad :: rest).length)
    (by simp only [List.length_append, List.length_cons]; omega) hres hbad
  have hmain : vdcPower level vms opts env =
      (specHandshake opts env.promptAnswer apiUser apiToken apiURL ++
        specVmFailEvents level apiURL apiUser apiToken (name2idOf servers) pre,
       Except.error ("invalid VM name \"" ++ bad ++ "\"")) := by
    unfold vdcPower
    simp only [hlogin, hpanel, hu, ht, ha, hs, hsplit]
    rw [hloop]
    simp [specHandshake, (vdcResolvePassword_spec opts env.promptAnswer).2.1,
      List.append_assoc]
  refine ⟨hmain, ?_⟩
  rw [hmain]
  simp [patchesOf_append, patchesOf_specHandshake, patchesOf_specVmFailEvents]

/-- C2 at a concrete input: `web1,nope,web2` with `nope` unresolvable —
the error names `nope`, and the only power call issued is `web1`'s. -/
theorem claim_C2_witness :
    vdcPower true "web1,nope,web2" wOptsP wVdcEnvOk =
      (specHandshake wOptsP wVdcEnvOk.promptAnswer "u1" "t1" "https://api.example" ++
        specVmFailEvents true "https://api.example" "u1" "t1" (name2idOf wServers) ["web1"],
       Except.error ("invalid VM name \"nope\"")) ∧
    patchesOf (vdcPower true "web1,nope,web2" wOptsP wVdcEnvOk).1 =
      ["https://api.example/objects/servers/id1/power"] := by
  have h := claim_C2 true "web1,nope,web2" wOptsP wVdcEnvOk wPanel "u1" "t1"
    "https://api.example" wServers ["web1"] "nope" ["web2"] (by decide) rfl rfl
    (by decide) (by decide) (by decide) rfl (fun _ => rfl) (by decide) (by decide)
  exact ⟨h.1, by rw [h.2]; decide⟩

/-! ## The name table and duplicate display names -/

/-- Reading back through a property assignment: the assigned key now
holds the assigned value, every other key is untouched. -/
theorem objGet_objSet (m : List (String × String)) (k v k' : String) :
    objGet (objSet m k v) k' = if k' = k then some v else objGet m k' := by
  induction m with
  | nil =>
    by_cases h : k' = k <;> simp [objSet, objGet, List.find?, h]
    · simp [Ne.symm h]
  | cons p rest ih =>
    by_cases hp : p.1 = k
    · by_cases h : k' = k
      · simp [objSet, objGet, List.find?, hp, h]
      · simp [objSet, objGet, List.find?, hp, h, Ne.symm h]
    · by_cases hq : p.1 = k'
      · have h : ¬ (k' = k) := fun he => hp (hq.trans he)
        simp [objSet, objGet, List.find?, hp, hq, h]
      · simp only [objGet, objSet, if_neg hp, List.find?] at ih ⊢
        simp [hq, ih]

/-- Folding the assignments of a server list over any starting table:
the lookup equals the id of the last server carrying the name (first in
the reversed enumeration), falling back to the starting table. -/
theorem objGet_foldl_objSet (name : String) :
    ∀ (servers m : List (String × String)),
      objGet (servers.foldl (fun m p => objSet m p.2 p.1) m) name =
        ((servers.reverse.find? (fun p => decide (p.2 = name))).map (fun p => p.1)).or
          (objGet m name) := by
  intro servers
  induction servers with
  | nil => intro m; simp
  | cons s rest ih =>
    intro m
    simp only [List.foldl_cons, List.reverse_cons]
    rw [ih (objSet m s.2 s.1), List.find?_append]
    rcases hf : rest.reverse.find? (fun p => decide (p.2 = name)) with _ | p
    · by_cases h : s.2 = name
      · simp [hf, List.find?, h, objGet_objSet]
      · simp [hf, List.find?, h, objGet_objSet, Ne.symm h]
    · simp [hf]

/-- Lookup in the finished name table: the id of the last server with
that display name in enumeration order. -/
theorem objGet_name2idOf (servers : List (String × String)) (name : String) :
    objGet (name2idOf servers) name =
      (servers.reverse.find? (fun p => decide (p.2 = name))).map (fun p => p.1) := by
  rw [name2idOf, objGet_foldl_objSet]
  rcases servers.reverse.find? (fun p => decide (p.2 = name)) with _ | p <;>
    simp [objGet]

/-- C10: when two or more servers share a display name, the name table
maps that name to the identifier of the last such server in enumeration
order, and a power call for that name succeeds against exactly that
server, with no ambiguity error. -/
theorem claim_C10 (servers : List (String × String)) (name lastId lastNm : String)
    (level : Bool) (apiURL apiUser apiToken : String) (env : VdcEnv)
    (hdup : 2 ≤ (servers.filter (fun p => decide (p.2 = name))).length)
    (hlast : servers.reverse.find? (fun p => decide (p.2 = name)) = some (lastId, lastNm))
    (hpow : env.powerResp lastId = Except.ok ()) :
    objGet (name2idOf servers) name = some lastId ∧
    vdcLoop level apiURL apiUser apiToken (name2idOf servers) env 1 [name] 0 =
      ([Event.printLine (name ++ ": switching power " ++ (if level then "on" else "off")),
        Event.apiPatch (powerUrl apiURL lastId) apiUser apiToken level],
       Except.ok ()) := by
  have hget : objGet (name2idOf servers) name = some lastId := by
    rw [objGet_name2idOf, hlast]; simp
  refine ⟨hget, ?_⟩
  simp [vdcLoop, hget, hpow, powerUrl]

/-- C10 at a concrete input: two servers both named `web`; the table
resolves `web` to the second id and the power call targets it. -/
theorem claim_C10_witness :
    objGet (name2idOf wServersDup) "web" = some "id2" ∧
    vdcLoop true "https://api.example" "u1" "t1" (name2idOf wServersDup) wVdcEnvOk 1
      ["web"] 0 =
      ([Event.printLine ("web: switching power on"),
        Event.apiPatch (powerUrl "https://api.example" "id2") "u1" "t1" true],
       Except.ok ()) := by
  have h := claim_C10 wServersDup "web" "id2" "web" true "https://api.example" "u1" "t1"
    wVdcEnvOk (by decide) (by decide) rfl
  exact ⟨h.1, h.2⟩

/-! ## Line structure of the prefixed output -/

/-- Splitting into lines never yields an empty list of lines. -/
theorem splitLinesL_ne_nil : ∀ l : List Char, splitLinesL l ≠ []
  | [] => by simp [splitLinesL]
  | c :: rest => by
    by_cases h : isLineTerm c
    · simp [splitLinesL, h]
    · rcases hs : splitLinesL rest with _ | ⟨y, ys⟩
      · exact absurd hs (splitLinesL_ne_nil rest)
      · simp [splitLinesL, h, hs]

/-- Prepending terminator-free characters extends the first line and
leaves the remaining lines alone. -/
theorem splitLinesL_append_clean :
    ∀ (pfx m : List Char), (∀ c ∈ pfx, isLineTerm c = false) →
      splitLinesL (pfx ++ m) = (pfx ++ (splitLinesL m).headI) :: (splitLinesL m).tail := by
  intro pfx
  induction pfx with
  | nil =>
    intro m _
    rcases hs : splitLinesL m with _ | ⟨y, ys⟩
    · exact absurd hs (splitLinesL_ne_nil m)
    · simp [hs]
  | cons c pfx ih =>
    intro m hclean
    have hc : isLineTerm c = false := hclean c (by simp)
    have hrec := ih m (fun x hx => hclean x (by simp [hx]))
    rcases hs : splitLinesL m with _ | ⟨y, ys⟩
    · exact absurd hs (splitLinesL_ne_nil m)
    · simp only [hs] at hrec
      simp [splitLinesL, hc, hrec, hs]

/-- Inserting terminator-free characters after every line terminator
prefixes every line except the first. -/
theorem splitLinesL_tagAfterTerms :
    ∀ (l pfx : List Char), (∀ c ∈ pfx, isLineTerm c = false) →
      splitLinesL (tagAfterTerms pfx l) =
        (splitLinesL l).headI :: ((splitLinesL l).tail.map (fun x => pfx ++ x)) := by
  intro l
  induction l with
  | nil => intro pfx _; simp [tagAfterTerms, splitLinesL]
  | cons c rest ih =>
    intro pfx hclean
    have hrec := ih pfx hclean
    rcases hs : splitLinesL rest with _ | ⟨y, ys⟩
    · exact absurd hs (splitLinesL_ne_nil rest)
    · simp only [hs] at hrec
      by_cases h : isLineTerm c
      · have happ := splitLinesL_append_clean pfx (tagAfterTerms pfx rest) hclean
        simp only [hrec] at happ
        simp [tagAfterTerms, splitLinesL, h, happ, hs]
      · rcases ht : splitLinesL (tagAfterTerms pfx rest) with _ | ⟨z, zs⟩
        · exact absurd ht (splitLinesL_ne_nil _)
        · simp only [ht, List.headI_cons, List.tail_cons] at hrec
          injection hrec with h1 h2
          simp [tagAfterTerms, splitLinesL, h, ht, hs, h1, h2]

/-- `replace(/^/mg, pfx)` with a terminator-free prefix prefixes every
line of the output by `pfx`. -/
theorem splitLinesL_tagLines (pfx s : String)
    (hclean : ∀ c ∈ pfx.data, isLineTerm c = false) :
    splitLinesL (tagLines pfx s).data =
      (splitLinesL s.data).map (fun x => pfx.data ++ x) := by
  show splitLinesL (pfx.data ++ tagAfterTerms pfx.data s.data) = _
  rw [splitLinesL_append_clean pfx.data _ hclean,
    splitLinesL_tagAfterTerms s.data pfx.data hclean]
  rcases hs : splitLinesL s.data with _ | ⟨y, ys⟩
  · exact absurd hs (splitLinesL_ne_nil _)
  · simp [hs]

/-! ## The SSH loop -/

/-- When every host's connection and command succeed, the loop produces
exactly the expected trace and returns normally. -/
theorem sshLoop_ok (cmd username password : String) (env : SshEnv) :
    ∀ hosts : List String,
      (∀ h ∈ hosts, env.connectResp h = Except.ok () ∧ ∃ r, env.execResp h = Except.ok r) →
      sshLoop cmd username password env hosts =
        (specSshEvents cmd username env hosts, Except.ok ()) := by
  intro hosts
  induction hosts with
  | nil => intro _; simp [sshLoop, specSshEvents]
  | cons host rest ih =>
    intro hall
    obtain ⟨hc, r, he⟩ := hall host (by simp)
    have hrec := ih (fun x hx => hall x (by simp [hx]))
    by_cases hs0 : r.stdout = "" <;>
      simp [sshLoop, hc, he, hrec, specSshEvents, specHostEvents, hs0,
        List.append_assoc]

/-- When the hosts before `bad` succeed but `bad`'s connection (or its
command) fails, the loop performs the full per-host work for the
earlier hosts, reaches `bad`, and stops with `bad`'s error; no later
host is touched. -/
theorem sshLoop_fail (cmd username password : String) (env : SshEnv) (e : String) :
    ∀ (pre : List String) (bad : String) (rest : List String),
      (∀ h ∈ pre, env.connectResp h = Except.ok () ∧ ∃ r, env.execResp h = Except.ok r) →
      (env.connectResp bad = Except.error e ∨
        (env.connectResp bad = Except.ok () ∧ env.execResp bad = Except.error e)) →
      sshLoop cmd username password env (pre ++ bad :: rest) =
        (specSshEvents cmd username env pre ++ specFailHostEvents cmd username env bad,
         Except.error e) := by
  intro pre
  induction pre with
  | nil =>
    intro bad rest _ hbad
    rcases hbad with hb | ⟨hb1, hb2⟩
    · simp [sshLoop, hb, specSshEvents, specFailHostEvents]
    · simp [sshLoop, hb1, hb2, specSshEvents, specFailHostEvents]
  | cons hst pre ih =>
    intro bad rest hpre hbad
    obtain ⟨hc, r, he⟩ := hpre hst (by simp)
    have hrec := ih bad rest (fun x hx => hpre x (by simp [hx])) hbad
    by_cases hs0 : r.stdout = "" <;>
      simp [sshLoop, hc, he, hrec, specSshEvents, specHostEvents, hs0,
        List.append_assoc]

/-- One host's expected trace contains exactly one connection attempt. -/
theorem connectsOf_specHostEvents (cmd username : String) (env : SshEnv) (host : String) :
    connectsOf (specHostEvents cmd username env host) = [host] := by
  rcases he : env.execResp host with e | r
  · simp [specHostEvents, connectsOf, he]
  · by_cases h : r.stdout = "" <;> simp [specHostEvents, connectsOf, he, h]

/-- The expected successful trace connects once per host, in order. -/
theorem connectsOf_specSshEvents (cmd username : String) (env : SshEnv)
    (hosts : List String) :
    connectsOf (specSshEvents cmd username env hosts) = hosts := by
  induction hosts with
  | nil => simp [specSshEvents, connectsOf]
  | cons host rest ih =>
    simp [specSshEvents, connectsOf_append, connectsOf_specHostEvents, ih]

/-- The failing host's trace contains exactly its own connection
attempt. -/
theorem connectsOf_specFailHostEvents (cmd username : String) (env : SshEnv)
    (host : String) :
    connectsOf (specFailHostEvents cmd username env host) = [host] := by
  rcases hc : env.connectResp host with e | u <;>
    simp [specFailHostEvents, connectsOf, hc]

/-- The password-resolution events contain no connection attempt. -/
theorem connectsOf_sshResolvePassword (opts : Opts) (a : String) :
    connectsOf (sshResolvePassword opts a).1 = [] := by
  cases h : opts.password <;> simp [sshResolvePassword, connectsOf, h]

/-- C4: when every host succeeds, the exec workflow opens exactly one
connection per host, in list order, prints the captured output only
when it is non-empty, and the printed text carries the
`username@host: ` prefix on every line (for terminator-free
prefixes). -/
theorem claim_C4 (cmd hosts : String) (opts : Opts) (env : SshEnv)
    (hall : ∀ h ∈ splitComma hosts,
      env.connectResp h = Except.ok () ∧ ∃ r, env.execResp h = Except.ok r) :
    sshCommand cmd hosts opts env =
      ((sshResolvePassword opts env.promptAnswer).1 ++
        specSshEvents cmd opts.username env (splitComma hosts),
       Except.ok ()) ∧
    connectsOf (sshCommand cmd hosts opts env).1 = splitComma hosts ∧
    (∀ (host : String) (r : SshResult), env.execResp host = Except.ok r →
      (∀ c ∈ (opts.username ++ "@" ++ host ++ ": ").data, isLineTerm c = false) →
      splitLinesL (tagLines (opts.username ++ "@" ++ host ++ ": ") r.stdout).data =
        (splitLinesL r.stdout.data).map
          (fun x => (opts.username ++ "@" ++ host ++ ": ").data ++ x)) := by
  have hloop := sshLoop_ok cmd opts.username ((sshResolvePassword opts env.promptAnswer).2.password.getD "")
    env (splitComma hosts) hall
  have hmain : sshCommand cmd hosts opts env =
      ((sshResolvePassword opts env.promptAnswer).1 ++
        specSshEvents cmd opts.username env (splitComma hosts),
       Except.ok ()) := by
    simp only [sshCommand]
    rw [(sshResolvePassword_spec opts env.promptAnswer).2.2.1, hloop]
  refine ⟨hmain, ?_, ?_⟩
  · rw [hmain]
    simp [connectsOf_append, connectsOf_sshResolvePassword, connectsOf_specSshEvents]
  · intro host r _ hclean
    exact splitLinesL_tagLines _ r.stdout hclean

/-- C4 at a concrete input: two hosts, one connection each in order. -/
theorem claim_C4_witness :
    sshCommand "uptime" "h1,h2" wOptsP wSshEnvOk =
      ((sshResolvePassword wOptsP wSshEnvOk.promptAnswer).1 ++
        specSshEvents "uptime" wOptsP.username wSshEnvOk (splitComma "h1,h2"),
       Except.ok ()) ∧
    connectsOf (sshCommand "uptime" "h1,h2" wOptsP wSshEnvOk).1 = ["h1", "h2"] := by
  have h := claim_C4 "uptime" "h1,h2" wOptsP wSshEnvOk
    (fun x _ => ⟨rfl, wRes, rfl⟩)
  exact ⟨h.1, by rw [h.2.1]; decide⟩

/-- C5: when an earlier-succeeding host list reaches a host whose
connection or command fails, the exec workflow stops with that error,
never opens a connection to any later host, and the process exits with
status 1. -/
theorem claim_C5 (cmd hosts : String) (opts : Opts) (env : SshEnv) (venv : VdcEnv)
    (pre : List String) (bad : String) (rest : List String) (e : String)
    (hsplit : splitComma hosts = pre ++ bad :: rest)
    (hpre : ∀ h ∈ pre,
      env.connectResp h = Except.ok () ∧ ∃ r, env.execResp h = Except.ok r)
    (hbad : env.connectResp bad = Except.error e ∨
      (env.connectResp bad = Except.ok () ∧ env.execResp bad = Except.error e)) :
    sshCommand cmd hosts opts env =
      ((sshResolvePassword opts env.promptAnswer).1 ++
        (specSshEvents cmd opts.username env pre ++
          specFailHostEvents cmd opts.username env bad),
       Except.error e) ∧
    connectsOf (sshCommand cmd hosts opts env).1 = pre ++ [bad] ∧
    (dispatch (some (Cmd.exec cmd hosts opts)) venv env).1 = 1 := by
  have hloop := sshLoop_fail cmd opts.username ((sshResolvePassword opts env.promptAnswer).2.password.getD "")
    env e pre bad rest hpre hbad
  have hmain : sshCommand cmd hosts opts env =
      ((sshResolvePassword opts env.promptAnswer).1 ++
        (specSshEvents cmd opts.username env pre ++
          specFailHostEvents cmd opts.username env bad),
       Except.error e) := by
    simp only [sshCommand]
    rw [(sshResolvePassword_spec opts env.promptAnswer).2.2.1, hsplit, hloop]
  refine ⟨hmain, ?_, ?_⟩
  · rw [hmain]
    simp [connectsOf_append, connectsOf_sshResolvePassword, connectsOf_specSshEvents,
      connectsOf_specFailHostEvents]
  · simp [dispatch, runCmd, hmain, finishRun]

/-- C5 at a concrete input: `h1,h2` with `h1` unreachable — the run
fails with `h1`'s error, connects only to `h1`, and exits 1. -/
theorem claim_C5_witness :
    sshCommand "uptime" "h1,h2" wOptsP wSshEnvFail =
      ((sshResolvePassword wOptsP wSshEnvFail.promptAnswer).1 ++
        (specSshEvents "uptime" wOptsP.username wSshEnvFail [] ++
          specFailHostEvents "uptime" wOptsP.username wSshEnvFail "h1"),
       Except.error "unreachable") ∧
    connectsOf (sshCommand "uptime" "h1,h2" wOptsP wSshEnvFail).1 = ["h1"] ∧
    (dispatch (some (Cmd.exec "uptime" "h1,h2" wOptsP)) wVdcEnvOk wSshEnvFail).1 = 1 := by
  have h := claim_C5 "uptime" "h1,h2" wOptsP wSshEnvFail wVdcEnvOk [] "h1" ["h2"]
    "unreachable" (by decide) (fun x hx => absurd hx (List.not_mem_nil x))
    (Or.inl rfl)
  exact ⟨h.1, by rw [h.2.1]; decide, h.2.2⟩

/-! ## Scraping and the missing-marker failure -/

/-- A successful literal-marker check exposes the marker as an initial
segment. -/
theorem startsWithL_append : ∀ (p l : List Char), startsWithL p l = true →
    ∃ t, l = p ++ t := by
  intro p
  induction p with
  | nil => intro l _; exact ⟨l, rfl⟩
  | cons c cs ih =>
    intro l h
    cases l with
    | nil => simp [startsWithL] at h
    | cons d ds =>
      simp only [startsWithL, Bool.and_eq_true, decide_eq_true_eq] at h
      obtain ⟨t, ht⟩ := ih ds h.2
      exact ⟨t, by simp [h.1, ht]⟩

/-- A successful scrape means the literal marker occurs in the text:
the regex can only match where its literal part is present. -/
theorem scrapeAux_occurs : ∀ (marker text : List Char) (cap : List Char),
    scrapeAux marker text = some cap → marker <:+: text := by
  intro marker text
  induction text with
  | nil => intro cap h; simp [scrapeAux] at h
  | cons c rest ih =>
    intro cap h
    by_cases hsw : startsWithL marker (c :: rest)
    · obtain ⟨t, ht⟩ := startsWithL_append marker (c :: rest) hsw
      exact ⟨[], t, by simp [ht]⟩
    · simp only [scrapeAux, hsw, Bool.false_eq_true, if_false] at h
      obtain ⟨s, t, hst⟩ := ih cap h
      exact ⟨c :: s, t, by simp [← hst]⟩

/-- String-level counterpart: a marker absent from the body makes the
corresponding scrape fail. -/
theorem scrape_eq_none_of_missing (marker text : String)
    (h : ¬ (marker.data <:+: text.data)) : scrape marker text = none := by
  rcases hs : scrape marker text with _ | v
  · rfl
  · exfalso
    rcases hv : scrapeAux marker.data text.data with _ | cap
    · simp [scrape, hv] at hs
    · exact h (scrapeAux_occurs marker.data text.data cap hv)

/-- The password-resolution events contain no power-set call. -/
theorem patchesOf_vdcResolvePassword (opts : Opts) (a : String) :
    patchesOf (vdcResolvePassword opts a).1 = [] := by
  cases h : opts.password <;> simp [vdcResolvePassword, patchesOf, h]

/-- The password-resolution events contain no server-listing call. -/
theorem apiGetsOf_vdcResolvePassword (opts : Opts) (a : String) :
    apiGetsOf (vdcResolvePassword opts a).1 = [] := by
  cases h : opts.password <;> simp [vdcResolvePassword, apiGetsOf, h]

/-- C3: when the panel body misses any of the three textual markers,
credential discovery fails deterministically — the run stops right
after the panel GET with the destructuring error, and the trace has no
server-listing call and no power-set call. -/
theorem claim_C3 (level : Bool) (vms : String) (opts : Opts) (env : VdcEnv)
    (body : String)
    (hlogin : env.loginResp = Except.ok ())
    (hpanel : env.panelResp = Except.ok body)
    (hmiss : ¬ (userMarker.data <:+: body.data) ∨ ¬ (tokenMarker.data <:+: body.data) ∨
      ¬ (apiMarker.data <:+: body.data)) :
    (vdcPower level vms opts env).2 = Except.error nullMatchError ∧
    (vdcPower level vms opts env).1 =
      (vdcResolvePassword opts env.promptAnswer).1 ++
        [Event.httpPost (opts.location ++ "/api/login"),
         Event.httpGet (opts.location ++ "/Panel/")] ∧
    patchesOf (vdcPower level vms opts env).1 = [] ∧
    apiGetsOf (vdcPower level vms opts env).1 = [] := by
  have hstop : vdcPower level vms opts env =
      ((vdcResolvePassword opts env.promptAnswer).1 ++
        [Event.httpPost (opts.location ++ "/api/login"),
         Event.httpGet (opts.location ++ "/Panel/")],
       Except.error nullMatchError) := by
    rcases hu : scrape userMarker body with _ | u
    · simp [vdcPower, hlogin, hpanel, hu,
        (vdcResolvePassword_spec opts env.promptAnswer).2.1]
    · rcases ht : scrape tokenMarker body with _ | t
      · simp [vdcPower, hlogin, hpanel, hu, ht,
          (vdcResolvePassword_spec opts env.promptAnswer).2.1]
      · rcases ha : scrape apiMarker body with _ | a
        · simp [vdcPower, hlogin, hpanel, hu, ht, ha,
            (vdcResolvePassword_spec opts env.promptAnswer).2.1]
        · exfalso
          rcases hmiss with hm | hm | hm
          · exact (by rw [scrape_eq_none_of_missing userMarker body hm] at hu; exact
              Option.noConfusion hu)
          · exact (by rw [scrape_eq_none_of_missing tokenMarker body hm] at ht; exact
              Option.noConfusion ht)
          · exact (by rw [scrape_eq_none_of_missing apiMarker body hm] at ha; exact
              Option.noConfusion ha)
  refine ⟨by simp [hstop], by simp [hstop], ?_, ?_⟩
  · rw [hstop]
    cases h : opts.password <;> simp [vdcResolvePassword, patchesOf, h]
  · rw [hstop]
    cases h : opts.password <;> simp [vdcResolvePassword, apiGetsOf, h]

/-- C3 at a concrete input: a panel body with none of the markers —
discovery fails and no API call follows. -/
theorem claim_C3_witness :
    (vdcPower true "web1" wOptsP wVdcEnvNoMark).2 = Except.error nullMatchError ∧
    patchesOf (vdcPower true "web1" wOptsP wVdcEnvNoMark).1 = [] ∧
    apiGetsOf (vdcPower true "web1" wOptsP wVdcEnvNoMark).1 = [] := by
  have h := claim_C3 true "web1" wOptsP wVdcEnvNoMark "<html>no credentials here</html>"
    rfl rfl (Or.inl (by decide))
  exact ⟨h.1, h.2.2.1, h.2.2.2⟩
